import Mathlib

/-!
Verification of the rolling-origin evaluation logic of the time-series
forecasting course notebook (`lab1_statistical_models/notebook_empty.ipynb`).

The notebook is an exercise skeleton: the bodies of `evaluate_model` and
`evaluate_pasta_sales_model` are elided (`...`).  The definitions below are
therefore modelled from the design spec (sections 4.1-4.4, 7) and from the
structure that the skeleton does fix (the order of the pipeline steps, the
`pd.concat` of per-fold predictions, the per-fold metric averaging).
Series are embedded as lists of rationals (with `Option` for series that may
contain missing values); time indices are list positions.
-/

namespace TSF

/-- One train/test fold.  `trainEnd` and `testEnd` are exclusive bounds, so
the train range is `[trainStart, trainEnd)` and the test range is
`[testStart, testEnd)`. -/
structure Fold where
  trainStart : Nat
  trainEnd : Nat
  testStart : Nat
  testEnd : Nat
deriving Repr, DecidableEq, Inhabited

/-- Modelled from the spec: the fixed 80% initial-train cutoff
(`floor(0.8 * N)`) used by the `ExpandingWindowSplitter` that `evaluate_model`
is instructed to build (its construction `cv = ...` is elided in the
notebook). -/
def initialWindow (N : Nat) : Nat := 4 * N / 5

/-- Modelled from the spec: the fold generation loop of the expanding-window
Splitter (its construction is elided in the notebook).  Starting at
`trainEnd = t`, emit the fold `train = [0, t)`, `test = [t, t+H)` and advance
`t` by the step size 1, stopping once `t + H > N`.  The last fold whose
horizon would overrun the series is dropped, per the spec's stated policy.
`fuel` bounds the recursion; `splitter` supplies enough of it. -/
def genFolds (N H : Nat) : Nat → Nat → List Fold
  | 0, _ => []
  | fuel + 1, t =>
    if t + H ≤ N then ⟨0, t, t, t + H⟩ :: genFolds N H fuel (t + 1) else []

/-- Modelled from the spec: the expanding-window Splitter over a series of
length `N` with horizon `H`, starting from the 80% initial-train cutoff. -/
def splitter (N H : Nat) : List Fold := genFolds N H (N + 1) (initialWindow N)

/-- Modelled from the spec: the error taxonomy of section 7 relevant to
fitting and imputation (the notebook itself contains no error handling
code). -/
inductive FitError where
  | convergence
  | insufficientData
  | missingValue
deriving Repr, DecidableEq, Inhabited

/-- Modelled from the spec: a Forecaster under the fit/predict contract,
collapsed to one function: given the training series and a horizon it either
returns that many point forecasts or fails with a fitting error. -/
abbrev Forecaster : Type := List ℚ → Nat → Except FitError (List ℚ)

/-- The forecasts and realized values of one fold (the spec's
ForecastResult). -/
structure FoldResult where
  fold : Fold
  y_pred : List ℚ
  y_true : List ℚ
deriving Repr, DecidableEq, Inhabited

/-- The training slice of a series selected by a fold. -/
def sliceTrain (y : List ℚ) (f : Fold) : List ℚ :=
  (y.drop f.trainStart).take (f.trainEnd - f.trainStart)

/-- The test slice of a series selected by a fold. -/
def sliceTest (y : List ℚ) (f : Fold) : List ℚ :=
  (y.drop f.testStart).take (f.testEnd - f.testStart)

/-- Arithmetic mean of a list of rationals (`0` for the empty list, following
the `x / 0 = 0` convention of `ℚ`). -/
def mean (l : List ℚ) : ℚ := l.sum / l.length

/-- Modelled from the spec: MAE = mean(|y_true - y_pred|) over aligned
points (the notebook's metric objects are elided). -/
def mean_absolute_error (y_true y_pred : List ℚ) : ℚ :=
  mean ((y_true.zip y_pred).map fun p => |p.1 - p.2|)

/-- Mean absolute first difference of a series: the naive one-step in-sample
forecast error used as the MASE scale denominator. -/
def meanAbsFirstDiff (tr : List ℚ) : ℚ :=
  mean ((tr.zip tr.tail).map fun p => |p.2 - p.1|)

/-- Modelled from the spec: MASE = MAE / (mean absolute first difference of
the training series), computed per fold (the notebook's metric objects are
elided). -/
def mean_absolute_scaled_error (y_true y_pred tr : List ℚ) : ℚ :=
  mean_absolute_error y_true y_pred / meanAbsFirstDiff tr

/-- Evaluate one fold: fit the forecaster on the training slice and predict
the test horizon; a fitting failure is returned as such. -/
def evalFold (model : Forecaster) (y : List ℚ) (f : Fold) :
    Except FitError FoldResult :=
  (model (sliceTrain y f) (f.testEnd - f.testStart)).map fun preds =>
    ⟨f, preds, sliceTest y f⟩

/-- Run `evalFold` over every fold, in order, propagating the first fitting
failure to the caller (the spec's policy: failures are surfaced, never
swallowed into the aggregate). -/
def mapFolds (model : Forecaster) (y : List ℚ) : List Fold → Except FitError (List FoldResult)
  | [] => .ok []
  | f :: fs =>
    match evalFold model y f with
    | .error e => .error e
    | .ok r => (mapFolds model y fs).map fun rs => r :: rs

/-- The spec's EvaluationSummary: the per-fold results together with the
aggregate MAE and MASE. -/
structure EvaluationSummary where
  foldResults : List FoldResult
  mae : ℚ
  mase : ℚ
deriving Repr, DecidableEq, Inhabited

/-- Aggregate per-fold results: the notebook averages the per-fold metric
columns of the results frame, so the aggregate MAE/MASE are means of the
per-fold values. -/
def summarize (y : List ℚ) (rs : List FoldResult) : EvaluationSummary :=
  ⟨rs,
   mean (rs.map fun r => mean_absolute_error r.y_true r.y_pred),
   mean (rs.map fun r => mean_absolute_scaled_error r.y_true r.y_pred (sliceTrain y r.fold))⟩

/-- Modelled from the spec: `evaluate_model` (its body is elided in the
notebook).  It builds the expanding-window Splitter with the fixed 80%
initial-train cutoff over its input series, evaluates the forecaster on every
fold, and aggregates the per-fold metrics. -/
def evaluate_model (model : Forecaster) (y : List ℚ) (horizon : Nat) :
    Except FitError EvaluationSummary :=
  (mapFolds model y (splitter y.length horizon)).map (summarize y)

/-- Forward fill with an explicit "last observed value" accumulator:
a missing entry is replaced by the last observed value (or stays missing if
nothing has been observed yet). -/
def ffill : List (Option ℚ) → Option ℚ → List (Option ℚ)
  | [], _ => []
  | none :: rest, last => last :: ffill rest last
  | some v :: rest, _ => some v :: ffill rest (some v)

/-- Modelled from the spec: the forward-fill Imputer (the notebook applies
sktime's `Imputer(method="ffill")`, whose call site is elided): propagate the
last observed value forward; entries before the first observation stay
missing. -/
def forwardFill (y : List (Option ℚ)) : List (Option ℚ) := ffill y none

/-- Turn a gap-free optional series into a plain one; a remaining gap is
surfaced as `MissingValueError` per the spec's error taxonomy. -/
def toComplete : List (Option ℚ) → Except FitError (List ℚ)
  | [] => .ok []
  | none :: _ => .error .missingValue
  | some v :: rest => (toComplete rest).map fun l => v :: l

/-- The single temporal train/test fold used by `evaluate_pasta_sales_model`:
train on everything before `splitIdx` (the position of 2018-01-01), test on
everything from it on. -/
def pastaFold (N splitIdx : Nat) : Fold := ⟨0, splitIdx, splitIdx, N⟩

/-- Modelled from the spec: `evaluate_pasta_sales_model` (its body is elided
in the notebook).  Following the order fixed by the exercise skeleton, it
first splits the series at the given index, then imputes each slice with
forward fill, then fits the forecaster on the training slice and predicts the
whole test horizon, and finally computes MAE and MASE on the single fold. -/
def evaluate_pasta_sales_model (model : Forecaster) (y : List (Option ℚ))
    (splitIdx : Nat) : Except FitError EvaluationSummary :=
  match toComplete (forwardFill (y.take splitIdx)),
        toComplete (forwardFill (y.drop splitIdx)) with
  | .error e, _ => .error e
  | .ok _, .error e => .error e
  | .ok y_train, .ok y_test =>
    match model y_train y_test.length with
    | .error e => .error e
    | .ok y_pred =>
      .ok ⟨[⟨pastaFold y.length splitIdx, y_pred, y_test⟩],
           mean_absolute_error y_test y_pred,
           mean_absolute_scaled_error y_test y_pred y_train⟩

/-- Modelled from the spec: zero-fill imputation for exogenous promotion
counts (the notebook's exercise step 8, whose cell is empty): a missing entry
means zero promotions, a present entry is kept. -/
def zeroFill (x : List (Option ℚ)) : List ℚ := x.map fun o => o.getD 0

/-- Modelled from the spec: the "last known value" baseline forecaster
(sktime's `NaiveForecaster(strategy="last")`), which repeats the last
training value over the horizon and cannot fit on an empty training
window. -/
def lastValue : Forecaster := fun tr h =>
  match tr.getLast? with
  | some v => .ok (List.replicate h v)
  | none => .error .insufficientData

/-- Whether an evaluation outcome is a success. -/
def isOkE {α : Type} (r : Except FitError α) : Bool :=
  match r with
  | .ok _ => true
  | .error _ => false

/-- The fitting error of a per-fold outcome, if any. -/
def errOf {α : Type} (r : Except FitError α) : Option FitError :=
  match r with
  | .ok _ => none
  | .error e => some e

/-- The time indices of the concatenation of all per-fold predictions, in
fold order (the notebook's `pd.concat(results["y_pred"].values)`). -/
def predIndices (s : EvaluationSummary) : List Nat :=
  (s.foldResults.map fun r =>
    List.range' r.fold.testStart (r.fold.testEnd - r.fold.testStart)).flatten

/-- The concatenated prediction indices of an evaluation outcome (empty for
a failed run). -/
def predIndicesOf (r : Except FitError EvaluationSummary) : List Nat :=
  match r with
  | .ok s => predIndices s
  | .error _ => []

/-- The folds an evaluation run actually evaluated (empty for a failed
run). -/
def foldsOf (r : Except FitError EvaluationSummary) : List Fold :=
  match r with
  | .ok s => s.foldResults.map fun x => x.fold
  | .error _ => []

/-! ### Structure of the expanding-window Splitter -/

theorem genFolds_length (N H : Nat) :
    ∀ fuel t, N + 1 - (t + H) ≤ fuel →
      (genFolds N H fuel t).length = if t + H ≤ N then N + 1 - (t + H) else 0 := by
  intro fuel
  induction fuel with
  | zero =>
    intro t ht
    simp only [genFolds, List.length_nil]
    split
    · omega
    · rfl
  | succ fuel ih =>
    intro t ht
    simp only [genFolds]
    by_cases h : t + H ≤ N
    · simp only [if_pos h, List.length_cons]
      rw [ih (t + 1) (by omega)]
      split
      · omega
      · omega
    · simp only [if_neg h]
      rfl

theorem genFolds_getElem (N H : Nat) :
    ∀ fuel t k, k < (genFolds N H fuel t).length →
      (genFolds N H fuel t)[k]? = some ⟨0, t + k, t + k, t + k + H⟩ := by
  intro fuel
  induction fuel with
  | zero =>
    intro t k h
    simp [genFolds] at h
  | succ fuel ih =>
    intro t k h
    by_cases hc : t + H ≤ N
    · simp only [genFolds, if_pos hc] at h ⊢
      match k with
      | 0 => simp
      | k + 1 =>
        simp only [List.length_cons, Nat.add_lt_add_iff_right] at h
        simp only [List.getElem?_cons_succ]
        rw [ih (t + 1) k h]
        congr 2 <;> omega
    · simp [genFolds, if_neg hc] at h

theorem genFolds_mem (N H : Nat) :
    ∀ fuel t f, f ∈ genFolds N H fuel t →
      f.trainStart = 0 ∧ f.testStart = f.trainEnd ∧ f.testEnd = f.trainEnd + H ∧
        f.trainEnd + H ≤ N ∧ t ≤ f.trainEnd := by
  intro fuel
  induction fuel with
  | zero =>
    intro t f hf
    simp [genFolds] at hf
  | succ fuel ih =>
    intro t f hf
    by_cases hc : t + H ≤ N
    · simp only [genFolds, if_pos hc, List.mem_cons] at hf
      rcases hf with rfl | hf
      · exact ⟨rfl, rfl, rfl, hc, Nat.le_refl _⟩
      · have := ih (t + 1) f hf
        exact ⟨this.1, this.2.1, this.2.2.1, this.2.2.2.1, by omega⟩
    · simp [genFolds, if_neg hc] at hf

theorem splitter_length (N H : Nat) :
    (splitter N H).length =
      if initialWindow N + H ≤ N then N + 1 - (initialWindow N + H) else 0 :=
  genFolds_length N H (N + 1) (initialWindow N) (by omega)

/-- C2 (amended): the expanding-window Splitter with the 80% cutoff produces
exactly `N - floor(0.8N) - H + 1` folds when `floor(0.8N) + H ≤ N`, and `0`
folds otherwise (the fold whose horizon would overrun the series is dropped);
every fold is time-ordered, with the test range immediately following the
train range. -/
theorem c2_theorem (N H : Nat) :
    ((splitter N H).length =
      if initialWindow N + H ≤ N then N - initialWindow N - H + 1 else 0)
    ∧ (splitter N H).all (fun f =>
        decide (f.trainStart = 0 ∧ f.trainEnd = f.testStart ∧ f.testStart ≤ f.testEnd)) = true := by
  constructor
  · rw [splitter_length N H]
    by_cases h : initialWindow N + H ≤ N
    · rw [if_pos h, if_pos h]; omega
    · rw [if_neg h, if_neg h]
  · rw [List.all_eq_true]
    intro f hf
    obtain ⟨h1, h2, h3, _, _⟩ := genFolds_mem N H (N + 1) (initialWindow N) f hf
    exact decide_eq_true (by omega)

/-- C2, counterexample to the claim as stated: for `N = 10`, `H = 3` the
claimed count `max 0 (N - floor(0.8N) - H) + 1 = 1`, but the Splitter
produces no fold at all (`train_end + H = 8 + 3 > 10` already for the first
candidate fold). -/
theorem c2_counterexample :
    ((splitter 10 3).length : ℤ) ≠
      max 0 ((10 : ℤ) - (initialWindow 10 : ℤ) - 3) + 1 := by decide

/-- C3: fold `k` of the Splitter over `N` points with horizon `H` exists iff
`floor(0.8N) + k + H ≤ N` (folds are produced in increasing time order with
step size 1, stopping once `train_end + H > N`), and it has
`train = [0, floor(0.8N)+k)` (the train range starts at the series start) and
`test = [floor(0.8N)+k, floor(0.8N)+k+H)`. -/
theorem c3_theorem (N H k : Nat) :
    (k < (splitter N H).length ↔ initialWindow N + k + H ≤ N)
    ∧ ∀ (h : k < (splitter N H).length),
        (splitter N H).get ⟨k, h⟩ =
          ⟨0, initialWindow N + k, initialWindow N + k, initialWindow N + k + H⟩ := by
  constructor
  · rw [splitter_length N H]
    by_cases h : initialWindow N + H ≤ N
    · rw [if_pos h]; omega
    · rw [if_neg h]; omega
  · intro h
    simp only [List.get_eq_getElem]
    rw [List.getElem_eq_iff]
    exact genFolds_getElem N H (N + 1) (initialWindow N) k h

/-- C3, witness: for the 10-point series with horizon 1, fold 0 exists
(`8 + 0 + 1 ≤ 10`) and is `train = [0, 8)`, `test = [8, 9)`. -/
theorem c3_witness :
    (0 < (splitter 10 1).length ↔ initialWindow 10 + 0 + 1 ≤ 10)
    ∧ (splitter 10 1).get ⟨0, by decide⟩ = ⟨0, 8, 8, 9⟩ :=
  ⟨(c3_theorem 10 1 0).1, (c3_theorem 10 1 0).2 (by decide)⟩

/-! ### The evaluation pipeline -/

theorem evalFold_ok_fold (model : Forecaster) (y : List ℚ) (f : Fold)
    (r : FoldResult) (h : evalFold model y f = .ok r) : r.fold = f := by
  unfold evalFold at h
  cases hm : model (sliceTrain y f) (f.testEnd - f.testStart) with
  | error e => rw [hm] at h; exact absurd h (by simp [Except.map])
  | ok preds =>
    rw [hm] at h
    simp only [Except.map, Except.ok.injEq] at h
    rw [← h]

theorem mapFolds_ok_folds (model : Forecaster) (y : List ℚ) :
    ∀ fs rs, mapFolds model y fs = .ok rs → rs.map (fun r => r.fold) = fs := by
  intro fs
  induction fs with
  | nil =>
    intro rs h
    simp only [mapFolds, Except.ok.injEq] at h
    rw [← h]
    rfl
  | cons f fs ih =>
    intro rs h
    simp only [mapFolds] at h
    cases he : evalFold model y f with
    | error e => rw [he] at h; exact absurd h (by simp)
    | ok r =>
      rw [he] at h
      cases hm : mapFolds model y fs with
      | error e => rw [hm] at h; exact absurd h (by simp [Except.map])
      | ok rs' =>
        rw [hm] at h
        simp only [Except.map, Except.ok.injEq] at h
        rw [← h, List.map_cons, evalFold_ok_fold model y f r he, ih rs' hm]

theorem genFolds_indices_one (N : Nat) :
    ∀ fuel t,
      ((genFolds N 1 fuel t).map fun f =>
        List.range' f.testStart (f.testEnd - f.testStart)).flatten =
      List.range' t (genFolds N 1 fuel t).length := by
  intro fuel
  induction fuel with
  | zero =>
    intro t
    simp [genFolds]
  | succ fuel ih =>
    intro t
    by_cases hc : t + 1 ≤ N
    · simp only [genFolds, if_pos hc, List.map_cons, List.flatten_cons, List.length_cons]
      have h1 : t + 1 - t = 1 := by omega
      rw [h1, List.range'_one, ih (t + 1), List.singleton_append,
        ← List.range'_succ t (genFolds N 1 fuel (t + 1)).length 1]
    · simp [genFolds, if_neg hc]

theorem splitter_indices_one (N : Nat) :
    ((splitter N 1).map fun f =>
      List.range' f.testStart (f.testEnd - f.testStart)).flatten =
    List.range' (initialWindow N) (splitter N 1).length :=
  genFolds_indices_one N (N + 1) (initialWindow N)

/-- C4 (amended): for horizon 1, concatenating the per-fold predictions of a
successful run of `evaluate_model` in fold order yields strictly increasing
time indices with no duplicates.  (For horizons `H ≥ 2` the step-1 expanding
window makes neighbouring test windows overlap, so the concatenation
contains duplicate indices; see the counterexample.) -/
theorem c4_theorem (model : Forecaster) (y : List ℚ) (s : EvaluationSummary)
    (h : evaluate_model model y 1 = .ok s) :
    (predIndices s).Pairwise (· < ·) := by
  unfold evaluate_model at h
  cases hm : mapFolds model y (splitter y.length 1) with
  | error e => rw [hm] at h; exact absurd h (by simp [Except.map])
  | ok rs =>
    rw [hm] at h
    simp only [Except.map, Except.ok.injEq] at h
    have hfr : s.foldResults = rs := by rw [← h]; rfl
    have hfolds := mapFolds_ok_folds model y (splitter y.length 1) rs hm
    have hidx : predIndices s = List.range' (initialWindow y.length)
        (splitter y.length 1).length := by
      unfold predIndices
      rw [hfr, ← splitter_indices_one y.length, ← hfolds, List.map_map]
      rfl
    rw [hidx]
    exact List.pairwise_lt_range' _ _

/-- C4, counterexample to the claim as stated: for the 12-point series
`[0,…,11]` with horizon 2 the successive test windows `[9,11)` and `[10,12)`
overlap, so the concatenated prediction index is `[9,10,10,11]`, which has a
duplicate and is not strictly increasing. -/
theorem c4_counterexample :
    predIndicesOf (evaluate_model lastValue [0,1,2,3,4,5,6,7,8,9,10,11] 2) = [9, 10, 10, 11]
    ∧ ¬ (predIndicesOf
        (evaluate_model lastValue [0,1,2,3,4,5,6,7,8,9,10,11] 2)).Pairwise (· < ·) := by
  constructor
  · decide
  · decide

/-- C4, witness: a successful horizon-1 run on `[0,1,2,3,4]` whose
concatenated prediction index `[4]` is strictly increasing. -/
theorem c4_witness :
    (predIndices ⟨[⟨⟨0, 4, 4, 5⟩, [3], [4]⟩], 1, 1⟩).Pairwise (· < ·) :=
  c4_theorem lastValue [0, 1, 2, 3, 4] ⟨[⟨⟨0, 4, 4, 5⟩, [3], [4]⟩], 1, 1⟩ (by
    norm_num [evaluate_model, splitter, genFolds, initialWindow, mapFolds, evalFold,
      lastValue, sliceTrain, sliceTest, summarize, mean, mean_absolute_error,
      mean_absolute_scaled_error, meanAbsFirstDiff, Except.map])

/-- C5: on the series `[1,…,10]` with horizon 1, the last-known-value
baseline is evaluated on exactly two folds — fold 1 trains on `[1..8]` and
predicts `8` for the point whose actual value is `9`, fold 2 trains on
`[1..9]` and predicts `9` for the point whose actual value is `10` — and the
aggregate MAE is `1`. -/
theorem c5_theorem :
    evaluate_model lastValue [1,2,3,4,5,6,7,8,9,10] 1 =
      .ok ⟨[⟨⟨0, 8, 8, 9⟩, [8], [9]⟩, ⟨⟨0, 9, 9, 10⟩, [9], [10]⟩], 1, 1⟩ := by
  norm_num [evaluate_model, splitter, genFolds, initialWindow, mapFolds, evalFold,
    lastValue, sliceTrain, sliceTest, summarize, mean, mean_absolute_error,
    mean_absolute_scaled_error, meanAbsFirstDiff, Except.map]

/-! ### Error propagation -/

theorem mapFolds_isOk (model : Forecaster) (y : List ℚ) :
    ∀ fs, isOkE (mapFolds model y fs) = fs.all fun f => isOkE (evalFold model y f) := by
  intro fs
  induction fs with
  | nil => rfl
  | cons f fs ih =>
    simp only [mapFolds, List.all_cons, ← ih]
    cases he : evalFold model y f with
    | error e => simp only [he]; rfl
    | ok r =>
      simp only [he]
      cases hm : mapFolds model y fs with
      | error e1 => rfl
      | ok rs => rfl

theorem mapFolds_error (model : Forecaster) (y : List ℚ) :
    ∀ fs e, mapFolds model y fs = .error e →
      e ∈ fs.filterMap fun f => errOf (evalFold model y f) := by
  intro fs
  induction fs with
  | nil =>
    intro e h
    exact absurd h (by simp [mapFolds])
  | cons f fs ih =>
    intro e h
    simp only [mapFolds] at h
    cases he : evalFold model y f with
    | error e0 =>
      rw [he] at h
      simp only [Except.error.injEq] at h
      simp [List.filterMap_cons, errOf, he, h]
    | ok r =>
      rw [he] at h
      cases hm : mapFolds model y fs with
      | error e1 =>
        rw [hm] at h
        simp only [Except.map, Except.error.injEq] at h
        simp only [List.filterMap_cons, errOf, he]
        exact h ▸ ih e1 hm
      | ok rs => rw [hm] at h; exact absurd h (by simp [Except.map])

/-- C9: a fitting failure on some fold is surfaced to the caller of
`evaluate_model`, never swallowed: the run succeeds exactly when every fold
fits, and a failed run reports a failure belonging to one of the folds (so
no aggregate metric is ever built from a fold that could not fit). -/
theorem c9_theorem (model : Forecaster) (y : List ℚ) (H : Nat) :
    (isOkE (evaluate_model model y H) =
      (splitter y.length H).all fun f => isOkE (evalFold model y f))
    ∧ ∀ e, evaluate_model model y H = .error e →
        e ∈ (splitter y.length H).filterMap fun f => errOf (evalFold model y f) := by
  constructor
  · have h1 := mapFolds_isOk model y (splitter y.length H)
    unfold evaluate_model
    cases hm : mapFolds model y (splitter y.length H) with
    | error e => rw [hm] at h1; simpa [isOkE, Except.map] using h1
    | ok rs => rw [hm] at h1; simpa [isOkE, Except.map] using h1
  · intro e he
    unfold evaluate_model at he
    cases hm : mapFolds model y (splitter y.length H) with
    | error e1 =>
      rw [hm] at he
      simp only [Except.map, Except.error.injEq] at he
      exact he ▸ mapFolds_error model y (splitter y.length H) e1 hm
    | ok rs => rw [hm] at he; exact absurd he (by simp [Except.map])

/-- C9, witness: on the one-point series `[1]` the single fold's training
window is empty, the last-known-value baseline cannot fit, and the run
reports exactly that fold's `InsufficientDataError`. -/
theorem c9_witness :
    FitError.insufficientData ∈
      (splitter 1 1).filterMap fun f => errOf (evalFold lastValue [1] f) :=
  (c9_theorem lastValue [1] 1).2 FitError.insufficientData rfl

/-! ### Metric algebra -/

theorem sum_map_mul (c : ℚ) : ∀ l : List ℚ, (l.map fun x => c * x).sum = c * l.sum := by
  intro l
  induction l with
  | nil => simp
  | cons a l ih => simp [ih, mul_add]

theorem mean_map_mul (c : ℚ) (l : List ℚ) :
    mean (l.map fun x => c * x) = c * mean l := by
  unfold mean
  rw [sum_map_mul, List.length_map, mul_div_assoc]

theorem mean_map_mul_comp (c : ℚ) (g : ℚ × ℚ → ℚ) (l : List (ℚ × ℚ)) :
    mean (l.map fun p => c * g p) = c * mean (l.map g) := by
  have h : (fun p => c * g p) = ((fun x => c * x) ∘ g) := rfl
  rw [h, ← List.map_map, mean_map_mul]

theorem abs_pair_scale (c : ℚ) (hc : 0 < c) :
    ((fun p : ℚ × ℚ => |p.1 - p.2|) ∘ Prod.map (fun x => c * x) fun x => c * x) =
      fun p : ℚ × ℚ => c * |p.1 - p.2| := by
  funext p
  obtain ⟨a, b⟩ := p
  simp only [Function.comp_apply, Prod.map, Function.id_def]
  rw [← mul_sub, abs_mul, abs_of_pos hc]

theorem mae_scale (c : ℚ) (hc : 0 < c) (y_true y_pred : List ℚ) :
    mean_absolute_error (y_true.map fun x => c * x) (y_pred.map fun x => c * x) =
      c * mean_absolute_error y_true y_pred := by
  unfold mean_absolute_error
  rw [List.zip_map, List.map_map, abs_pair_scale c hc, mean_map_mul_comp]

theorem diff_scale (c : ℚ) (hc : 0 < c) (tr : List ℚ) :
    meanAbsFirstDiff (tr.map fun x => c * x) = c * meanAbsFirstDiff tr := by
  unfold meanAbsFirstDiff
  rw [← List.map_tail, List.zip_map, List.map_map]
  have h : ((fun p : ℚ × ℚ => |p.2 - p.1|) ∘ Prod.map (fun x => c * x) fun x => c * x) =
      fun p : ℚ × ℚ => c * |p.2 - p.1| := by
    funext p
    obtain ⟨a, b⟩ := p
    simp only [Function.comp_apply, Prod.map, Function.id_def]
    rw [← mul_sub, abs_mul, abs_of_pos hc]
  rw [h, mean_map_mul_comp]

/-- C6: MASE is scale-invariant: rescaling the actuals, the predictions and
the training series (the whole series) by one positive constant leaves the
computed MASE unchanged. -/
theorem c6_theorem (c : ℚ) (y_true y_pred tr : List ℚ) (hc : 0 < c) :
    mean_absolute_scaled_error (y_true.map fun x => c * x)
      (y_pred.map fun x => c * x) (tr.map fun x => c * x) =
    mean_absolute_scaled_error y_true y_pred tr := by
  unfold mean_absolute_scaled_error
  rw [mae_scale c hc, diff_scale c hc, mul_div_mul_left _ _ (ne_of_gt hc)]

/-- C6, witness: doubling the series `[1,3]` with predictions `[2,5]` and
training series `[1,2,4]` leaves the MASE unchanged. -/
theorem c6_witness :
    (0 : ℚ) < 2 ∧
    mean_absolute_scaled_error ([1, 3].map fun x => 2 * x)
      ([2, 5].map fun x => 2 * x) ([1, 2, 4].map fun x => 2 * x) =
    mean_absolute_scaled_error [1, 3] [2, 5] [1, 2, 4] :=
  ⟨by norm_num, c6_theorem 2 [1, 3] [2, 5] [1, 2, 4] (by norm_num)⟩

/-! ### Imputation -/

theorem ffill_all_some :
    ∀ (y : List (Option ℚ)) (last : Option ℚ),
      y.all Option.isSome = true → ffill y last = y := by
  intro y
  induction y with
  | nil => intro last _; rfl
  | cons o rest ih =>
    intro last h
    cases o with
    | none => simp at h
    | some v =>
      simp only [List.all_cons, Option.isSome_some, Bool.true_and] at h
      simp only [ffill]
      rw [ih (some v) h]

/-- C7: forward-fill imputation leaves a series that already has no missing
values unchanged. -/
theorem c7_theorem (y : List (Option ℚ)) (h : y.all Option.isSome = true) :
    forwardFill y = y :=
  ffill_all_some y none h

/-- C7, witness: the complete two-point series `[1, 2]` is returned
unchanged by the forward-fill Imputer. -/
theorem c7_witness :
    [some (1 : ℚ), some 2].all Option.isSome = true
    ∧ forwardFill [some (1 : ℚ), some 2] = [some 1, some 2] :=
  ⟨rfl, c7_theorem [some 1, some 2] rfl⟩

theorem forwardFill_of_all_some (y : List (Option ℚ))
    (h : y.all Option.isSome = true) : forwardFill y = y :=
  ffill_all_some y none h

theorem ffill_take :
    ∀ (y : List (Option ℚ)) (k : Nat) (last : Option ℚ),
      ffill (y.take k) last = (ffill y last).take k := by
  intro y
  induction y with
  | nil => intro k last; simp [ffill]
  | cons o rest ih =>
    intro k last
    cases k with
    | zero => rfl
    | succ k =>
      cases o with
      | none =>
        simp only [List.take_succ_cons, ffill]
        rw [ih k last]
      | some v =>
        simp only [List.take_succ_cons, ffill]
        rw [ih k (some v)]

/-- C8 (amended): in `evaluate_pasta_sales_model` the train/test split is
constructed first and forward-fill runs on the slices afterwards, but for
the training slice the two orders agree: forward filling the prefix of a
series equals taking the prefix of the forward-filled series.  (The test
slice is not covered by this: its leading gap stays missing when imputation
runs after the split; see the counterexample.) -/
theorem c8_theorem (y : List (Option ℚ)) (k : Nat) :
    forwardFill (y.take k) = (forwardFill y).take k :=
  ffill_take y k none

/-- C8, counterexample to the claim as stated: on the series `[1, missing]`
split at index 1, `evaluate_pasta_sales_model` imputes only after splitting,
so its test slice still contains the gap (the run fails with
`MissingValueError`), whereas imputing before the split would have produced
the gap-free test slice `[1]`. -/
theorem c8_counterexample :
    evaluate_pasta_sales_model lastValue [some 1, none] 1 = .error FitError.missingValue
    ∧ forwardFill ([some (1 : ℚ), none].drop 1) = [none]
    ∧ (forwardFill [some (1 : ℚ), none]).drop 1 = [some 1] :=
  ⟨rfl, rfl, rfl⟩

/-- C10: zero-fill imputation of an exogenous column turns every missing
entry into `0` and keeps every present entry; in particular
`[missing, 1, missing, 0]` becomes `[0, 1, 0, 0]`. -/
theorem c10_theorem :
    zeroFill [none, some 1, none, some 0] = [0, 1, 0, 0]
    ∧ ∀ (x : List (Option ℚ)) (i : Nat),
        (zeroFill x).getD i 0 = (x.getD i none).getD 0 := by
  constructor
  · rfl
  · intro x
    induction x with
    | nil => intro i; rfl
    | cons o rest ih =>
      intro i
      cases i with
      | zero => rfl
      | succ i =>
        simp only [zeroFill, List.map_cons, List.getD_cons_succ]
        exact ih i

/-! ### Relating the two evaluation entry points -/

theorem map_some_all_isSome (l : List ℚ) : (l.map some).all Option.isSome = true := by
  induction l with
  | nil => rfl
  | cons a l ih =>
    simp only [List.map_cons, List.all_cons, Option.isSome_some, Bool.true_and]
    exact ih

theorem toComplete_map_some : ∀ l : List ℚ, toComplete (l.map some) = .ok l := by
  intro l
  induction l with
  | nil => rfl
  | cons a l ih =>
    simp only [List.map_cons, toComplete]
    rw [ih]
    rfl

theorem sliceTrain_pastaFold (y : List ℚ) (k : Nat) :
    sliceTrain y (pastaFold y.length k) = y.take k := by
  unfold sliceTrain pastaFold
  simp

theorem sliceTest_pastaFold (y : List ℚ) (k : Nat) :
    sliceTest y (pastaFold y.length k) = y.drop k := by
  unfold sliceTest pastaFold
  simp only
  rw [← List.length_drop, List.take_length]

theorem mean_singleton (x : ℚ) : mean [x] = x := by
  simp [mean]

/-- C1 (amended): `evaluate_model` does construct the expanding-window
Splitter with the fixed 80% initial-train cutoff over its input series and
evaluates the forecaster on every fold it produces; `evaluate_pasta_sales_model`
shares the per-fold evaluation logic (fit on the training slice, predict the
test horizon, compute MAE and MASE) but applies it to the single temporal
split at the given date index rather than to the folds of an 80% Splitter. -/
theorem c1_theorem :
    (∀ (model : Forecaster) (y : List ℚ) (H : Nat) (s : EvaluationSummary),
       evaluate_model model y H = .ok s →
         s.foldResults.map (fun r => r.fold) = splitter y.length H)
    ∧ ∀ (model : Forecaster) (y : List ℚ) (k : Nat),
        evaluate_pasta_sales_model model (y.map some) k =
          (evalFold model y (pastaFold y.length k)).map fun r => summarize y [r] := by
  constructor
  · intro model y H s h
    unfold evaluate_model at h
    cases hm : mapFolds model y (splitter y.length H) with
    | error e => rw [hm] at h; exact absurd h (by simp [Except.map])
    | ok rs =>
      rw [hm] at h
      simp only [Except.map, Except.ok.injEq] at h
      have hfr : s.foldResults = rs := by rw [← h]; rfl
      rw [hfr]
      exact mapFolds_ok_folds model y (splitter y.length H) rs hm
  · intro model y k
    have htr : toComplete (forwardFill ((y.map some).take k)) = .ok (y.take k) := by
      rw [← List.map_take, forwardFill_of_all_some _ (map_some_all_isSome _),
        toComplete_map_some]
    have hte : toComplete (forwardFill ((y.map some).drop k)) = .ok (y.drop k) := by
      rw [← List.map_drop, forwardFill_of_all_some _ (map_some_all_isSome _),
        toComplete_map_some]
    unfold evaluate_pasta_sales_model evalFold
    rw [sliceTrain_pastaFold]
    simp only [htr, hte, List.length_map, List.length_drop]
    have hh : (pastaFold y.length k).testEnd - (pastaFold y.length k).testStart =
        y.length - k := rfl
    rw [hh]
    cases hmod : model (y.take k) (y.length - k) with
    | error e => rfl
    | ok p =>
      simp only [Except.map]
      unfold summarize
      simp only [List.map_cons, List.map_nil]
      rw [mean_singleton, mean_singleton, sliceTest_pastaFold, sliceTrain_pastaFold]

/-- C1, counterexample to the claim as stated: on the 10-point series split
at index 5, `evaluate_pasta_sales_model` evaluates exactly the single fold
`train = [0,5)`, `test = [5,10)`, while the 80%-cutoff Splitter for that
series and horizon produces a different fold list (here: none at all, since
`8 + 5 > 10`), so the two entry points do not both evaluate the folds of an
80% Splitter. -/
theorem c1_counterexample :
    foldsOf (evaluate_pasta_sales_model lastValue
        ([1,2,3,4,5,6,7,8,9,10].map some) 5) = [pastaFold 10 5]
    ∧ splitter 10 5 = []
    ∧ [pastaFold 10 5] ≠ splitter 10 5 :=
  ⟨rfl, rfl, by decide⟩

/-- C1, witness: a successful run of `evaluate_model` on `[2,4,6,8]` with
horizon 1 whose per-fold results range over exactly the folds of the
80%-cutoff Splitter. -/
theorem c1_witness :
    (⟨[⟨⟨0, 3, 3, 4⟩, [6], [8]⟩], 2, 1⟩ : EvaluationSummary).foldResults.map
        (fun r => r.fold) = splitter 4 1 :=
  c1_theorem.1 lastValue [2, 4, 6, 8] 1 ⟨[⟨⟨0, 3, 3, 4⟩, [6], [8]⟩], 2, 1⟩ (by
    norm_num [evaluate_model, splitter, genFolds, initialWindow, mapFolds, evalFold,
      lastValue, sliceTrain, sliceTest, summarize, mean, mean_absolute_error,
      mean_absolute_scaled_error, meanAbsFirstDiff, Except.map])

end TSF
